import Mathlib

/-!
Verification development for project_to_txt.py, a tool that walks a
directory tree and concatenates the text contents of matching files into a
single output file.  The Python source is shallowly embedded below:
pure string manipulation becomes Lean functions on String or List Char,
the file system becomes an explicit tree (for the collector) or an
operation oracle recording the outcome of each system call (for the
loader), and Python exceptions become Except values.
-/

/- ===================== Python string primitives ===================== -/

/-- Whitespace as recognised by Python str.strip and the regex class used
by textwrap (space, tab, vertical whitespace, the ASCII separators and the
common Unicode spaces). -/
def pyIsSpace (c : Char) : Bool :=
  c = ' ' || ('\x09' ≤ c && c ≤ '\x0d') || ('\x1c' ≤ c && c ≤ '\x1f') ||
  c = '\x85' || c = '\xa0' || c = '\u1680' || ('\u2000' ≤ c && c ≤ '\u200a') ||
  c = '\u2028' || c = '\u2029' || c = '\u202f' || c = '\u205f' || c = '\u3000'

/-- Python str.strip with no argument: remove leading and trailing
whitespace. -/
def pyStrip (s : String) : String :=
  String.mk (((s.data.dropWhile pyIsSpace).reverse.dropWhile pyIsSpace).reverse)

/-- Python str.lower, on the character range the program manipulates
(ASCII letters). -/
def pyLower (s : String) : String :=
  String.mk (s.data.map Char.toLower)

/-- Python str.lstrip with argument "." : remove every leading dot. -/
def pyLstripDot (s : String) : String :=
  String.mk (s.data.dropWhile (· = '.'))

/-- Python str.split with separator comma: the pieces between commas, as
a list of strings; the empty string yields one empty piece. -/
def splitComma : List Char → List String
  | [] => [""]
  | ',' :: rest => "" :: splitComma rest
  | c :: rest =>
    match splitComma rest with
    | [] => [String.mk [c]]
    | t :: ts => String.mk (c :: t.data) :: ts

/- ===================== Built-in configuration sets ===================== -/

/-- DEFAULT_EXCLUDE_DIRS from the source (a Python set; membership is what
the program uses, so a list models it). -/
def DEFAULT_EXCLUDE_DIRS : List String :=
  [".git", "target", "node_modules", "build", "dist", ".idea", ".vscode",
   ".venv", "__pycache__", ".mvn", ".gradle", ".pytest_cache",
   ".scannerwork", ".sonar", "coverage", "out", "jacoco-report"]

/-- DEFAULT_INCLUDE_EXT from the source. -/
def DEFAULT_INCLUDE_EXT : List String :=
  ["py", "js", "ts", "tsx", "jsx", "html", "css",
   "md", "markdown", "txt", "yml", "yaml", "json", "xml", "xsd",
   "properties", "ini", "cfg", "conf", "sql", "sh", "bash", "ksh", "bat",
   "groovy", "kt", "gradle", "rb", "go", "c", "cc", "cpp", "h", "hpp",
   "env", "dockerfile", "jenkinsfile"]

/-- SPECIAL_FILENAMES from the source: names wanted although they carry no
extension. -/
def SPECIAL_FILENAMES : List String := ["dockerfile", "jenkinsfile"]

/- ===================== Configuration resolver (main, lines 148 to 154) ===================== -/

/-- Resolution of the include-extension set in main: when the --include
argument is non-blank, the comma-separated non-blank tokens, each
stripped, lower-cased and with leading dots removed, replace the default
set; otherwise the default set is used. -/
def resolveIncludeExts (includeArg : String) : List String :=
  if pyStrip includeArg ≠ "" then
    ((splitComma includeArg.data).filter (fun x => pyStrip x ≠ "")).map
      (fun x => pyLstripDot (pyLower (pyStrip x)))
  else DEFAULT_INCLUDE_EXT

/-- Resolution of the exclude-directory set in main: when the
--exclude-dirs argument is non-blank, the stripped non-blank tokens are
unioned with the default set; otherwise the default set is used. -/
def resolveExcludeDirs (excludeArg : String) : List String :=
  if pyStrip excludeArg ≠ "" then
    DEFAULT_EXCLUDE_DIRS ++
      ((splitComma excludeArg.data).filter (fun x => pyStrip x ≠ "")).map
        (fun x => pyStrip x)
  else DEFAULT_EXCLUDE_DIRS

/-- Follows the spec text for the include tokens: the comma-separated
non-blank tokens of the --include argument, trimmed, lower-cased and with
the leading dot removed.  Used to compare the resolved set against the
words of the specification. -/
def includeTokensSpec (includeArg : String) : List String :=
  ((splitComma includeArg.data).filter (fun x => pyStrip x ≠ "")).map
    (fun x => pyLstripDot (pyLower (pyStrip x)))

/-- Follows the spec text for the exclude tokens: the comma-separated
non-blank tokens of the --exclude-dirs argument, trimmed. -/
def excludeTokensSpec (excludeArg : String) : List String :=
  ((splitComma excludeArg.data).filter (fun x => pyStrip x ≠ "")).map
    (fun x => pyStrip x)

/- ===================== should_include (lines 88 to 95) ===================== -/

/-- The substring after the last dot of a name, as computed by
rsplit with separator dot and maxsplit one. -/
def lastExt (s : List Char) : List Char :=
  (s.reverse.takeWhile (fun c => c ≠ '.')).reverse

/-- should_include from the source: the lower-cased name is accepted when
it is one of the special filenames, or when it contains a dot and the part
after the last dot is in the include-extension set. -/
def should_include (filename : String) (include_exts : List String) : Bool :=
  let lower := pyLower filename
  if SPECIAL_FILENAMES.contains lower then true
  else if lower.data.contains '.' then
    include_exts.contains (String.mk (lastExt lower.data))
  else false

/- ===================== File collector (gather_files, lines 97 to 104) ===================== -/

/-- A file-system tree for the collector: an entry is a plain file or a
directory with its entries. -/
inductive FSEntry where
  | file (name : String) : FSEntry
  | dir (name : String) (children : List FSEntry) : FSEntry

/-- The directory names of a directory listing (os.walk dirnames). -/
def dirNames : List FSEntry → List String
  | [] => []
  | .file _ :: rest => dirNames rest
  | .dir n _ :: rest => n :: dirNames rest

/-- The plain file names of a directory listing (os.walk filenames). -/
def fileNames : List FSEntry → List String
  | [] => []
  | .file n :: rest => n :: fileNames rest
  | .dir _ _ :: rest => fileNames rest

/-- The entries of the sub-directory with the given name (names are unique
on a real file system; the first match is taken). -/
def lookupDir : List FSEntry → String → List FSEntry
  | [], _ => []
  | .file _ :: rest, d => lookupDir rest d
  | .dir n cs :: rest, d => if n = d then cs else lookupDir rest d

/-- Strict lexicographic comparison of two strings by character code,
matching the order Python sorted uses on str. -/
def lexLt : List Char → List Char → Bool
  | [], [] => false
  | [], _ :: _ => true
  | _ :: _, [] => false
  | a :: as, b :: bs =>
    if a.val < b.val then true
    else if b.val < a.val then false
    else lexLt as bs

/-- Non-strict string comparison derived from lexLt. -/
def strLeb (a b : String) : Bool := !(lexLt b.data a.data)

/-- Insert a string into a sorted list (helper of the sort). -/
def insertSorted (x : String) : List String → List String
  | [] => [x]
  | y :: ys => if strLeb x y then x :: y :: ys else y :: insertSorted x ys

/-- Sorting of a list of strings, the order Python sorted produces. -/
def sortStrs : List String → List String
  | [] => []
  | x :: xs => insertSorted x (sortStrs xs)

mutual

/-- Number of nodes of one entry (helper of entriesSize). -/
def entrySize : FSEntry → Nat
  | .file _ => 1
  | .dir _ cs => 1 + entriesSize cs

/-- Total number of nodes of a directory listing; an upper bound on the
recursion depth of the walk, used as fuel. -/
def entriesSize : List FSEntry → Nat
  | [] => 0
  | e :: rest => entrySize e + entriesSize rest

end

/-- One os.walk traversal step, fuelled.  At each directory the
sub-directory names are sorted and the excluded ones pruned in place, the
file names are sorted and filtered through should_include, and the kept
sub-directories are visited in order.  The fuel only bounds the recursion
depth; gather_files below always supplies enough. -/
def walkFuel (exclude_dirs include_exts : List String) :
    Nat → String → List FSEntry → List String
  | 0, _, _ => []
  | fuel + 1, dirpath, entries =>
    ((sortStrs (fileNames entries)).filter
        (fun f => should_include f include_exts)).map
      (fun f => dirpath ++ "/" ++ f) ++
    List.flatten (((sortStrs (dirNames entries)).filter
        (fun d => !(exclude_dirs.contains d))).map
      (fun d =>
        walkFuel exclude_dirs include_exts fuel (dirpath ++ "/" ++ d)
          (lookupDir entries d)))

/-- gather_files from the source: the ordered candidate list produced by
walking the tree rooted at root. -/
def gather_files (root : String) (entries : List FSEntry)
    (include_exts exclude_dirs : List String) : List String :=
  walkFuel exclude_dirs include_exts (entriesSize entries + 1) root entries

/- ===================== Content loader (lines 64 to 86) ===================== -/

/-- The loader sees a file through three system operations: size query
(os.path.getsize), the 2048-byte sample read done by looks_binary, and
the full read.  Each can raise, which an Except value records; the error
payload is the text Python would render for the exception.  Each outcome
is recorded separately because the file can change between the calls
(permission change, truncation, removal). -/
structure PyFile where
  getsize : Except String Nat
  sample : Except String (List Nat)
  readAll : Except String (List Nat)

/-- A healthy file holding the given bytes: every operation succeeds and
the sample is the first 2048 bytes. -/
def mkFile (bytes : List Nat) : PyFile :=
  ⟨.ok bytes.length, .ok (bytes.take 2048), .ok bytes⟩

/-- looks_binary from the source: read a 2048-byte sample and report
whether it holds a null byte; on any exception report binary
(the comment in the source says: when in doubt, avoid). -/
def looks_binary (f : PyFile) : Bool :=
  match f.sample with
  | .ok chunk => chunk.contains 0
  | .error _ => true

/-- Continuation bytes of UTF-8: values between 0x80 and 0xBF. -/
def isCont (b : Nat) : Bool := 0x80 ≤ b && b ≤ 0xBF

/-- Strict UTF-8 decoding of a byte list, as bytes.decode with the utf-8
codec: rejects truncated sequences, stray continuation bytes, overlong
encodings, surrogates and values beyond 0x10FFFF. -/
def utf8Decode : List Nat → Option (List Char)
  | [] => some []
  | b :: rest =>
    if b ≤ 0x7F then
      (utf8Decode rest).map (fun cs => Char.ofNat b :: cs)
    else
      match rest with
      | [] => none
      | b2 :: rest2 =>
        if 0xC2 ≤ b && b ≤ 0xDF && isCont b2 then
          (utf8Decode rest2).map
            (fun cs => Char.ofNat ((b - 0xC0) * 64 + (b2 - 0x80)) :: cs)
        else if (b = 0xE0 && 0xA0 ≤ b2 && b2 ≤ 0xBF) ||
            (0xE1 ≤ b && b ≤ 0xEC && isCont b2) ||
            (b = 0xED && 0x80 ≤ b2 && b2 ≤ 0x9F) ||
            ((b = 0xEE || b = 0xEF) && isCont b2) then
          match rest2 with
          | [] => none
          | b3 :: rest3 =>
            if isCont b3 then
              (utf8Decode rest3).map (fun cs =>
                Char.ofNat ((b - 0xE0) * 4096 + (b2 - 0x80) * 64 + (b3 - 0x80)) :: cs)
            else none
        else if (b = 0xF0 && 0x90 ≤ b2 && b2 ≤ 0xBF) ||
            (0xF1 ≤ b && b ≤ 0xF3 && isCont b2) ||
            (b = 0xF4 && 0x80 ≤ b2 && b2 ≤ 0x8F) then
          match rest2 with
          | b3 :: b4 :: rest4 =>
            if isCont b3 && isCont b4 then
              (utf8Decode rest4).map (fun cs =>
                Char.ofNat ((b - 0xF0) * 262144 + (b2 - 0x80) * 4096 +
                  (b3 - 0x80) * 64 + (b4 - 0x80)) :: cs)
            else none
          | _ => none
        else none

/-- Latin-1 decoding: every byte maps to the character of the same code,
so decoding cannot fail and the replacement handler never fires. -/
def latin1Decode (data : List Nat) : List Char :=
  data.map Char.ofNat

/-- read_text_safely from the source: size check, binary sniff, full
read, UTF-8 decode with Latin-1 fallback; any exception of the size query
or of the full read is caught and turned into the reading-error skip
reason.  The first component is the decoded text when present, the second
the skip reason or the non-fatal note. -/
def read_text_safely (f : PyFile) (max_bytes : Int) : Option String × Option String :=
  match f.getsize with
  | .error e => (none, some ("IGNORED (error reading: " ++ e ++ ")"))
  | .ok size =>
    if (size : Int) > max_bytes then
      (none, some ("IGNORED (size " ++ toString size ++ " > " ++
        toString max_bytes ++ " bytes)"))
    else if looks_binary f then
      (none, some "IGNORED (binary file)")
    else
      match f.readAll with
      | .error e => (none, some ("IGNORED (error reading: " ++ e ++ ")"))
      | .ok data =>
        match utf8Decode data with
        | some cs => (some (String.mk cs), none)
        | none => (some (String.mk (latin1Decode data)),
            some "NOTE (decoded as latin-1 with replacements)")

/- ===================== Text wrapping (write_file_block, lines 126 to 136) ===================== -/

/-- Python str.expandtabs with the given tab size, applied by textwrap
before splitting (expand_tabs defaults to true in TextWrapper): each tab
becomes spaces up to the next tab stop, the column resets on carriage
return and line feed. -/
def expandTabsAux (tabsize : Nat) (col : Nat) : List Char → List Char
  | [] => []
  | c :: rest =>
    if c = '\x09' then
      (if tabsize > 0 then
        List.replicate (tabsize - col % tabsize) ' ' ++
          expandTabsAux tabsize (col + (tabsize - col % tabsize)) rest
      else expandTabsAux tabsize col rest)
    else if c = '\n' || c = '\x0d' then
      c :: expandTabsAux tabsize 0 rest
    else c :: expandTabsAux tabsize (col + 1) rest

/-- The chunk split of TextWrapper with break_on_hyphens disabled: the
text falls apart into maximal runs of whitespace and non-whitespace
(the simple word-separator regex). -/
def splitRuns : List Char → List (List Char)
  | [] => []
  | c :: rest =>
    match splitRuns rest with
    | [] => [[c]]
    | [] :: groups => [c] :: groups
    | (d :: ds) :: groups =>
      if pyIsSpace c = pyIsSpace d then (c :: d :: ds) :: groups
      else [c] :: (d :: ds) :: groups

/-- The greedy inner loop of TextWrapper: starting from the given current
length, move chunks onto the current line while the line stays within the
width.  Returns the chunks taken and the chunks left. -/
def takeGreedy (width curLen : Nat) :
    List (List Char) → List (List Char) × List (List Char)
  | [] => ([], [])
  | c :: rest =>
    if curLen + c.length ≤ width then
      let p := takeGreedy width (curLen + c.length) rest
      (c :: p.1, p.2)
    else ([], c :: rest)

/-- Character count of a chunk list (sum of map len in the source). -/
def chunksChars (l : List (List Char)) : Nat := (l.map List.length).sum

/-- The line-building loop of TextWrapper with drop_whitespace disabled
and break_long_words enabled, fuelled: per iteration, chunks are taken
greedily; when the next chunk alone exceeds the width it is broken at the
space left on the line; the assembled line is emitted when non-empty.
The fuel only bounds the number of emitted lines; wrapChunks below always
supplies enough. -/
def wrapFuel (width : Nat) : Nat → List (List Char) → List (List Char)
  | 0, _ => []
  | _, [] => []
  | fuel + 1, c0 :: crest =>
    match takeGreedy width 0 (c0 :: crest) with
    | (taken, []) => if taken.isEmpty then [] else [taken.flatten]
    | (taken, c :: rest2) =>
      if width < c.length then
        (taken.flatten ++
            c.take (if width < 1 then 1 else width - chunksChars taken)) ::
          wrapFuel width fuel
            (c.drop (if width < 1 then 1 else width - chunksChars taken) :: rest2)
      else if taken.isEmpty then []
      else taken.flatten :: wrapFuel width fuel (c :: rest2)

/-- TextWrapper wrap applied to a chunk list, with sufficient fuel. -/
def wrapChunks (width : Nat) (chunks : List (List Char)) : List (List Char) :=
  wrapFuel width (2 * chunksChars chunks + chunks.length + 1) chunks

/-- The wrapper built in write_file_block applied to one source line:
width 500, whitespace kept, long words broken, hyphens not special; tabs
are expanded first because expand_tabs keeps its default. -/
def pyWrap (raw : List Char) : List (List Char) :=
  wrapChunks 500 (splitRuns (expandTabsAux 8 0 raw))

/-- The physical output lines that one source line contributes: the
wrapped lines, or a single empty line when the wrapper returns nothing
(the source writes the empty string plus a newline in that case). -/
def outLinesForSource (raw : List Char) : List (List Char) :=
  match pyWrap raw with
  | [] => [[]]
  | ls => ls

/- ===================== Exporter (write_file_block and main loop) ===================== -/

/-- Python str.splitlines: break at line feed, carriage return (with the
carriage-return line-feed pair counting once), vertical tab, form feed,
the ASCII separators, next-line and the Unicode line separators; a
trailing break opens no extra line. -/
def pySplitlines : List Char → List (List Char)
  | [] => []
  | '\x0d' :: '\n' :: rest => [] :: pySplitlines rest
  | '\x0d' :: rest => [] :: pySplitlines rest
  | c :: rest =>
    if c = '\n' || c = '\x0b' || c = '\x0c' || c = '\x1c' || c = '\x1d' ||
        c = '\x1e' || c = '\x85' || c = '\u2028' || c = '\u2029' then
      [] :: pySplitlines rest
    else
      match pySplitlines rest with
      | [] => [[c]]
      | l :: ls => (c :: l) :: ls

/-- The join with newline of a list of lines (the separator join in the
source). -/
def joinNL : List (List Char) → List Char
  | [] => []
  | [l] => l
  | l :: l2 :: rest => l ++ '\n' :: joinNL (l2 :: rest)

/-- The separator line of the output: eighty dashes. -/
def sepLine : String := String.mk (List.replicate 80 '-')

/-- Rendering of the note inside the start marker: Python formats the
value into the f-string, so a missing note renders as None. -/
def noteRepr : Option String → String
  | some n => n
  | none => "None"

/-- write_file_block from the source, as the list of strings written to
the output stream: a skipped file yields the start marker carrying the
reason and a separator, nothing else; a loaded file yields the start
marker, a separator, one write per source line (its wrapped lines joined
with newline), a separator and the end marker. -/
def write_file_block (rel : String) (text : Option String)
    (note : Option String) : List String :=
  match text with
  | none =>
    ["===== FILE: " ++ rel ++ " (" ++ noteRepr note ++ ") =====\n",
     sepLine ++ "\n\n"]
  | some t =>
    ["===== FILE: " ++ rel ++ " =====\n", sepLine ++ "\n"] ++
    (pySplitlines t.data).map
      (fun raw => String.mk (joinNL (pyWrap raw)) ++ "\n") ++
    [sepLine ++ "\n", "===== END FILE: " ++ rel ++ " =====\n\n"]

/-- Modelled after os.path.relpath for the common case of a path that
lies below the root: the root and the separator are removed; other paths
are returned unchanged. -/
def relPath (f root : String) : String :=
  if f.take (root.length + 1) = root ++ "/" then f.drop (root.length + 1)
  else f

/-- The per-file loop of main (lines 162 to 167): each candidate is
loaded and written as one block, and the success counter grows by one
exactly when the loader produced text.  The file system is an oracle
mapping each path to the operation outcomes the loader will see. -/
def runExport (fs : String → PyFile) (max_bytes : Int) (root : String) :
    List String → List (List String) × Nat
  | [] => ([], 0)
  | f :: rest =>
    ((write_file_block (relPath f root) (read_text_safely (fs f) max_bytes).1
        (read_text_safely (fs f) max_bytes).2) :: (runExport fs max_bytes root rest).1,
     (if (read_text_safely (fs f) max_bytes).1.isSome then 1 else 0) +
       (runExport fs max_bytes root rest).2)

/- ===================== Theorems ===================== -/

/-- Claim C1, counterexample: running the collector with include set from
the token py on a root holding a.py, b.js and Dockerfile yields two
candidates, and Dockerfile is one of them.  This refutes the claim that
a.py would be the only candidate: should_include accepts a special
filename before it ever consults the include set. -/
theorem include_py_collects_dockerfile :
    (gather_files "root" [.file "a.py", .file "b.js", .file "Dockerfile"]
        (resolveIncludeExts "py") (resolveExcludeDirs "")).length = 2 ∧
    "root/Dockerfile" ∈ gather_files "root"
        [.file "a.py", .file "b.js", .file "Dockerfile"]
        (resolveIncludeExts "py") (resolveExcludeDirs "") := by
  decide

/-- Claim C1, amended: with the option include set to py, the collector
on a tree holding a.py, b.js and Dockerfile yields exactly the candidates
Dockerfile and a.py, in sorted order: b.js is excluded because the
include list replaces the default set, while Dockerfile stays included
because the special-filename allowance is unconditional and ignores the
include set. -/
theorem include_py_candidates :
    gather_files "root" [.file "a.py", .file "b.js", .file "Dockerfile"]
        (resolveIncludeExts "py") (resolveExcludeDirs "") =
      ["root/Dockerfile", "root/a.py"] ∧
    should_include "Dockerfile" (resolveIncludeExts "py") = true ∧
    should_include "b.js" (resolveIncludeExts "py") = false := by
  decide

/-- Claim C2: with a non-blank include argument the resolved
include-extension set has exactly the members described by the spec (the
non-blank tokens, trimmed, lower-cased, leading dots removed), replacing
the default set; with a non-blank exclude argument the resolved
exclude-directory set is, by membership, the union of the default set and
the trimmed non-blank tokens. -/
theorem resolve_include_replaces_exclude_unions
    (inc exc x y : String)
    (h1 : pyStrip inc ≠ "") (h2 : pyStrip exc ≠ "") :
    (x ∈ resolveIncludeExts inc ↔ x ∈ includeTokensSpec inc) ∧
    (y ∈ resolveExcludeDirs exc ↔
      y ∈ DEFAULT_EXCLUDE_DIRS ∨ y ∈ excludeTokensSpec exc) := by
  unfold resolveIncludeExts resolveExcludeDirs includeTokensSpec excludeTokensSpec
  rw [if_pos h1, if_pos h2]
  exact ⟨Iff.rfl, List.mem_append⟩

/-- Claim C2, witness at concrete arguments. -/
theorem resolve_include_replaces_exclude_unions_check :
    pyStrip " py " ≠ "" ∧ pyStrip "custom" ≠ "" ∧
    ("py" ∈ resolveIncludeExts " py " ↔ "py" ∈ includeTokensSpec " py ") ∧
    ("custom" ∈ resolveExcludeDirs "custom" ↔
      "custom" ∈ DEFAULT_EXCLUDE_DIRS ∨ "custom" ∈ excludeTokensSpec "custom") :=
  ⟨by decide, by decide,
   (resolve_include_replaces_exclude_unions " py " "custom" "py" "custom"
      (by decide) (by decide)).1,
   (resolve_include_replaces_exclude_unions " py " "custom" "py" "custom"
      (by decide) (by decide)).2⟩

/-- Claim C9: the size limit is exclusive.  When the reported size equals
the limit exactly, the loader does not take the size-skip branch (the
comparison is strictly greater-than) and the result is that of the
subsequent binary sniff and decode steps, spelled out on the right. -/
theorem size_equal_limit_not_skipped (f : PyFile) (n : Nat) (max_bytes : Int)
    (h1 : f.getsize = .ok n) (h2 : (n : Int) = max_bytes) :
    read_text_safely f max_bytes =
      (if looks_binary f then (none, some "IGNORED (binary file)")
       else
        match f.readAll with
        | .error e => (none, some ("IGNORED (error reading: " ++ e ++ ")"))
        | .ok data =>
          match utf8Decode data with
          | some cs => (some (String.mk cs), none)
          | none => (some (String.mk (latin1Decode data)),
              some "NOTE (decoded as latin-1 with replacements)")) := by
  have hn : ¬((n : Int) > max_bytes) := by omega
  simp only [read_text_safely, h1]
  rw [if_neg hn]

/-- Claim C9, witness: a two-byte file with the limit set to two is
loaded, not size-skipped. -/
theorem size_equal_limit_not_skipped_check :
    (mkFile [104, 105]).getsize = .ok 2 ∧ ((2 : Nat) : Int) = 2 ∧
    read_text_safely (mkFile [104, 105]) 2 = (some "hi", none) :=
  ⟨rfl, rfl,
   (size_equal_limit_not_skipped (mkFile [104, 105]) 2 2 rfl rfl).trans (by decide)⟩

/-- Claim C7: a file whose sample holds a null byte among its first 2048
bytes, and whose size stays within the limit, is always skipped as
binary.  The loader never sees the filename, so the extension cannot
influence this outcome. -/
theorem null_byte_always_binary_skip (bytes : List Nat) (max_bytes : Int)
    (h0 : 0 ∈ bytes.take 2048) (h1 : (bytes.length : Int) ≤ max_bytes) :
    read_text_safely (mkFile bytes) max_bytes =
      (none, some "IGNORED (binary file)") := by
  have hg : (mkFile bytes).getsize = .ok bytes.length := rfl
  have hb : looks_binary (mkFile bytes) = true := by
    simp only [looks_binary, mkFile]
    exact List.elem_iff.mpr h0
  have hn : ¬((bytes.length : Int) > max_bytes) := by omega
  simp only [read_text_safely, hg]
  rw [if_neg hn, if_pos hb]

/-- Claim C7, witness: a three-byte file starting with a null byte. -/
theorem null_byte_always_binary_skip_check :
    0 ∈ ([0, 65, 66] : List Nat).take 2048 ∧
    ((([0, 65, 66] : List Nat).length : Int) ≤ 100) ∧
    read_text_safely (mkFile [0, 65, 66]) 100 =
      (none, some "IGNORED (binary file)") :=
  ⟨by decide, by decide,
   null_byte_always_binary_skip [0, 65, 66] 100 (by decide) (by decide)⟩

/-- Claim C6: when the reported size exceeds the limit the loader fails
with the size skip reason carrying the size and the limit; the result is
the same for any file reporting that size, whatever its sample or
content, so the content is never read; and the exporter renders such a
skip as a start marker holding the reason plus a separator, with no end
marker and no body. -/
theorem size_skip_short_circuits (f g : PyFile) (n : Nat) (max_bytes : Int)
    (rel : String) (h1 : f.getsize = .ok n) (h2 : max_bytes < (n : Int))
    (h3 : g.getsize = .ok n) :
    read_text_safely f max_bytes =
      (none, some ("IGNORED (size " ++ toString n ++ " > " ++
        toString max_bytes ++ " bytes)")) ∧
    read_text_safely g max_bytes = read_text_safely f max_bytes ∧
    write_file_block rel none
        (some ("IGNORED (size " ++ toString n ++ " > " ++
          toString max_bytes ++ " bytes)")) =
      ["===== FILE: " ++ rel ++ " (" ++
         ("IGNORED (size " ++ toString n ++ " > " ++ toString max_bytes ++
           " bytes)") ++ ") =====\n",
       sepLine ++ "\n\n"] := by
  have hgt : (n : Int) > max_bytes := by omega
  have e1 : read_text_safely f max_bytes =
      (none, some ("IGNORED (size " ++ toString n ++ " > " ++
        toString max_bytes ++ " bytes)")) := by
    simp only [read_text_safely, h1]
    rw [if_pos hgt]
  have e2 : read_text_safely g max_bytes =
      (none, some ("IGNORED (size " ++ toString n ++ " > " ++
        toString max_bytes ++ " bytes)")) := by
    simp only [read_text_safely, h3]
    rw [if_pos hgt]
  exact ⟨e1, e2.trans e1.symm, rfl⟩

/-- Claim C6, witness: a three-byte file against a two-byte limit, and a
second file of the same reported size with different content. -/
theorem size_skip_short_circuits_check :
    (mkFile [1, 2, 3]).getsize = .ok 3 ∧ ((2 : Int) < (3 : Nat)) ∧
    read_text_safely (mkFile [1, 2, 3]) 2 =
      (none, some "IGNORED (size 3 > 2 bytes)") ∧
    read_text_safely (mkFile [9, 9, 9]) 2 = read_text_safely (mkFile [1, 2, 3]) 2 :=
  ⟨rfl, by decide,
   (size_skip_short_circuits (mkFile [1, 2, 3]) (mkFile [9, 9, 9]) 3 2 "a.py"
      rfl (by decide) rfl).1.trans (by decide),
   (size_skip_short_circuits (mkFile [1, 2, 3]) (mkFile [9, 9, 9]) 3 2 "a.py"
      rfl (by decide) rfl).2.1⟩

/-- Claim C3, counterexample: a file whose size query succeeds but whose
open for the binary sniff raises (permission denial) is skipped as
binary content, not with the reading-error reason carrying the error
text, because looks_binary swallows its own exceptions and answers
binary.  This refutes the claim that every error of steps one to four
surfaces as the reading-error variant. -/
theorem sniff_error_reported_as_binary :
    read_text_safely
        ⟨.ok 10, .error "Permission denied", .error "Permission denied"⟩
        1000000 ≠
      (none, some ("IGNORED (error reading: " ++ "Permission denied" ++ ")")) ∧
    read_text_safely
        ⟨.ok 10, .error "Permission denied", .error "Permission denied"⟩
        1000000 =
      (none, some "IGNORED (binary file)") := by
  decide

/-- Claim C3, amended: an error raised by the size query or by the full
read is caught and reported with the reading-error skip reason carrying
the error text; an error raised while sampling for the binary sniff is
instead absorbed by looks_binary and reported as binary content; and the
loader is total: whenever it returns no text it returns a skip reason, so
a bad file never aborts the run. -/
theorem loader_error_routing (f : PyFile) (max_bytes : Int) :
    (∀ e, f.getsize = .error e →
      read_text_safely f max_bytes =
        (none, some ("IGNORED (error reading: " ++ e ++ ")"))) ∧
    (∀ n e, f.getsize = .ok n → ¬((n : Int) > max_bytes) →
      f.sample = .error e →
      read_text_safely f max_bytes = (none, some "IGNORED (binary file)")) ∧
    (∀ n chunk e, f.getsize = .ok n → ¬((n : Int) > max_bytes) →
      f.sample = .ok chunk → chunk.contains 0 = false → f.readAll = .error e →
      read_text_safely f max_bytes =
        (none, some ("IGNORED (error reading: " ++ e ++ ")"))) ∧
    ((read_text_safely f max_bytes).1 = none →
      (read_text_safely f max_bytes).2.isSome = true) := by
  refine ⟨?_, ?_, ?_, ?_⟩
  · intro e he
    simp only [read_text_safely, he]
  · intro n e hg hn hs
    have hb : looks_binary f = true := by simp only [looks_binary, hs]
    simp only [read_text_safely, hg]
    rw [if_neg hn, if_pos hb]
  · intro n chunk e hg hn hs hz hr
    have hb : ¬(looks_binary f = true) := by
      simp only [looks_binary, hs, hz]
      decide
    simp only [read_text_safely, hg, hr]
    rw [if_neg hn, if_neg hb]
  · intro h1
    rcases hg : f.getsize with e | n
    · simp [read_text_safely, hg]
    · by_cases hn : (n : Int) > max_bytes
      · simp [read_text_safely, hg, hn]
      · by_cases hb : looks_binary f = true
        · simp [read_text_safely, hg, hn, hb]
        · rcases hr : f.readAll with e | data
          · simp [read_text_safely, hg, hn, hb, hr]
          · rcases hd : utf8Decode data with _ | cs
            · simp [read_text_safely, hg, hn, hb, hr, hd]
            · simp [read_text_safely, hg, hn, hb, hr, hd] at h1

/-- Claim C3, witness: the error routing applied to a file whose size
query raises, and to the file of the counterexample whose sample read
raises. -/
theorem loader_error_routing_check :
    (⟨.error "boom", .ok [], .ok []⟩ : PyFile).getsize = .error "boom" ∧
    read_text_safely ⟨.error "boom", .ok [], .ok []⟩ 5 =
      (none, some "IGNORED (error reading: boom)") ∧
    read_text_safely
        ⟨.ok 10, .error "Permission denied", .error "Permission denied"⟩
        1000000 =
      (none, some "IGNORED (binary file)") :=
  ⟨rfl,
   ((loader_error_routing ⟨.error "boom", .ok [], .ok []⟩ 5).1 "boom" rfl).trans
     (by decide),
   (loader_error_routing
       ⟨.ok 10, .error "Permission denied", .error "Permission denied"⟩
       1000000).2.1 10 "Permission denied" rfl (by decide) rfl⟩

/-- Claim C5: the export loop writes exactly one block per candidate, the
block list is the image of the candidate list in order, and the success
counter equals the number of candidates whose load produced text. -/
theorem export_one_block_per_candidate (fs : String → PyFile)
    (max_bytes : Int) (root : String) (files : List String) :
    (runExport fs max_bytes root files).1 =
      files.map (fun f =>
        write_file_block (relPath f root)
          (read_text_safely (fs f) max_bytes).1
          (read_text_safely (fs f) max_bytes).2) ∧
    (runExport fs max_bytes root files).1.length = files.length ∧
    (runExport fs max_bytes root files).2 =
      (files.filter
        (fun f => (read_text_safely (fs f) max_bytes).1.isSome)).length := by
  induction files with
  | nil => exact ⟨rfl, rfl, rfl⟩
  | cons f rest ih =>
    refine ⟨?_, ?_, ?_⟩
    · simp only [runExport, List.map_cons]
      rw [ih.1]
    · simp only [runExport, List.length_cons]
      rw [ih.2.1]
    · simp only [runExport, List.filter_cons]
      cases h : (read_text_safely (fs f) max_bytes).1.isSome
      · simp [h, ih.2.2]
      · simp only [h, if_true, List.length_cons, ih.2.2]
        omega

/-- Membership through insertSorted: an element of the insertion is the
inserted string or an element of the original list. -/
theorem mem_insertSorted (x y : String) (l : List String)
    (h : x ∈ insertSorted y l) : x = y ∨ x ∈ l := by
  induction l with
  | nil => simpa [insertSorted] using h
  | cons z zs ih =>
    simp only [insertSorted] at h
    split at h
    · rcases List.mem_cons.mp h with h1 | h1
      · exact Or.inl h1
      · exact Or.inr h1
    · rcases List.mem_cons.mp h with h1 | h1
      · exact Or.inr (by simp [h1])
      · rcases ih h1 with h2 | h2
        · exact Or.inl h2
        · exact Or.inr (List.mem_cons_of_mem _ h2)

/-- Membership through the sort: sorting introduces no new elements. -/
theorem mem_sortStrs (x : String) (l : List String)
    (h : x ∈ sortStrs l) : x ∈ l := by
  induction l with
  | nil => simp [sortStrs] at h
  | cons z zs ih =>
    simp only [sortStrs] at h
    rcases mem_insertSorted x z (sortStrs zs) h with h1 | h1
    · simp [h1]
    · exact List.mem_cons_of_mem _ (ih h1)

/-- Every path the walk emits is a directory path joined to a file name
that should_include accepted. -/
theorem mem_walkFuel_shape (exclude inc : List String) :
    ∀ (fuel : Nat) (dirpath p : String) (entries : List FSEntry),
      p ∈ walkFuel exclude inc fuel dirpath entries →
      ∃ d f, p = d ++ "/" ++ f ∧ should_include f inc = true := by
  intro fuel
  induction fuel with
  | zero =>
    intro dirpath p entries h
    simp [walkFuel] at h
  | succ fuel ih =>
    intro dirpath p entries h
    simp only [walkFuel, List.mem_append] at h
    rcases h with h | h
    · rcases List.mem_map.mp h with ⟨f, hf, rfl⟩
      exact ⟨dirpath, f, rfl, (List.mem_filter.mp hf).2⟩
    · rcases List.mem_flatten.mp h with ⟨l, hl, hp⟩
      rcases List.mem_map.mp hl with ⟨d, _, rfl⟩
      exact ih _ p _ hp

/-- Claim C10: an include argument made of one comma is non-blank, so it
replaces the default set, yet every token is blank, so the resolved
include-extension set is empty; should_include then accepts exactly the
names whose lower-cased form is a special filename; hence every candidate
the collector emits on any tree is a file whose lower-cased full name is
dockerfile or jenkinsfile. -/
theorem include_comma_special_only :
    resolveIncludeExts "," = [] ∧
    (∀ fname : String, should_include fname (resolveIncludeExts ",") =
      SPECIAL_FILENAMES.contains (pyLower fname)) ∧
    (∀ (root p : String) (entries : List FSEntry) (exclude : List String),
      p ∈ gather_files root entries (resolveIncludeExts ",") exclude →
      ∃ d f, p = d ++ "/" ++ f ∧
        SPECIAL_FILENAMES.contains (pyLower f) = true) := by
  have hres : resolveIncludeExts "," = [] := by decide
  have hsi : ∀ fname : String,
      should_include fname (resolveIncludeExts ",") =
        SPECIAL_FILENAMES.contains (pyLower fname) := by
    intro fname
    rw [hres]
    simp only [should_include]
    cases hc : SPECIAL_FILENAMES.contains (pyLower fname)
    · simp only [hc, if_false, Bool.false_eq_true]
      split
      · rfl
      · rfl
    · simp [hc]
  refine ⟨hres, hsi, ?_⟩
  intro root p entries exclude hp
  unfold gather_files at hp
  rcases mem_walkFuel_shape exclude (resolveIncludeExts ",") _ root p entries hp
    with ⟨d, f, rfl, hf⟩
  exact ⟨d, f, rfl, (hsi f).symm.trans hf⟩

/-- Claim C10, witness: on a root holding Dockerfile and a.py with the
include argument a single comma, the candidate root/Dockerfile is
collected and the theorem applies to it. -/
theorem include_comma_special_only_check :
    should_include "Dockerfile" (resolveIncludeExts ",") =
      SPECIAL_FILENAMES.contains (pyLower "Dockerfile") ∧
    "root/Dockerfile" ∈ gather_files "root"
        [.file "Dockerfile", .file "a.py"] (resolveIncludeExts ",")
        DEFAULT_EXCLUDE_DIRS ∧
    (∃ d f, "root/Dockerfile" = d ++ "/" ++ f ∧
      SPECIAL_FILENAMES.contains (pyLower f) = true) :=
  ⟨include_comma_special_only.2.1 "Dockerfile", by decide,
   include_comma_special_only.2.2 "root" "root/Dockerfile"
     [.file "Dockerfile", .file "a.py"] DEFAULT_EXCLUDE_DIRS (by decide)⟩

/-- The run split loses no characters: flattening the runs gives back the
original character list. -/
theorem splitRuns_flatten (s : List Char) : (splitRuns s).flatten = s := by
  induction s with
  | nil => rfl
  | cons c rest ih =>
    simp only [splitRuns]
    cases h : splitRuns rest with
    | nil =>
      rw [h] at ih
      simp only [List.flatten_nil] at ih
      simp [← ih]
    | cons g groups =>
      cases g with
      | nil =>
        rw [h] at ih
        simp only [List.flatten_cons, List.nil_append] at ih
        simp [List.flatten_cons, ih]
      | cons d ds =>
        rw [h] at ih
        simp only [List.flatten_cons] at ih
        dsimp only
        by_cases hsp : pyIsSpace c = pyIsSpace d
        · rw [if_pos hsp]
          simp only [List.flatten_cons, List.cons_append]
          exact congrArg (List.cons c) ih
        · rw [if_neg hsp]
          simp only [List.flatten_cons, List.cons_append, List.nil_append]
          exact congrArg (List.cons c) ih

/-- Tab expansion leaves a tab-free character list unchanged, whatever the
starting column. -/
theorem expandTabsAux_no_tab (t : Nat) :
    ∀ (s : List Char), '\x09' ∉ s → ∀ col, expandTabsAux t col s = s := by
  intro s
  induction s with
  | nil => intro _ _; rfl
  | cons c rest ih =>
    intro h col
    have hc : ¬(c = '\x09') := by
      intro hc
      exact h (by rw [hc]; exact List.mem_cons_self _ _)
    have hrest : '\x09' ∉ rest := fun hr => h (List.mem_cons_of_mem _ hr)
    simp only [expandTabsAux]
    rw [if_neg hc]
    split
    · rw [ih hrest 0]
    · rw [ih hrest (col + 1)]

/-- The greedy step is a split of its input: the chunks taken followed by
the chunks left give back the input. -/
theorem takeGreedy_append (w : Nat) :
    ∀ (n : Nat) (l : List (List Char)),
      (takeGreedy w n l).1 ++ (takeGreedy w n l).2 = l := by
  intro n l
  induction l generalizing n with
  | nil => rfl
  | cons c rest ih =>
    simp only [takeGreedy]
    split
    · simp only [List.cons_append]
      rw [ih]
    · rfl

/-- When the greedy step starting from length zero takes nothing, the
head chunk alone exceeds the width and everything is left. -/
theorem takeGreedy_fst_nil (w : Nat) (x : List Char) (xs : List (List Char))
    (h : (takeGreedy w 0 (x :: xs)).1 = []) :
    w < x.length ∧ (takeGreedy w 0 (x :: xs)).2 = x :: xs := by
  simp only [takeGreedy, Nat.zero_add] at h ⊢
  by_cases hc : x.length ≤ w
  · rw [if_pos hc] at h
    simp at h
  · rw [if_neg hc] at h ⊢
    exact ⟨by omega, rfl⟩

/-- Character count of an appended chunk list. -/
theorem chunksChars_append (l1 l2 : List (List Char)) :
    chunksChars (l1 ++ l2) = chunksChars l1 + chunksChars l2 := by
  simp [chunksChars, List.sum_append]

/-- Character count of a chunk cons. -/
theorem chunksChars_cons (c : List Char) (l : List (List Char)) :
    chunksChars (c :: l) = c.length + chunksChars l := by
  simp [chunksChars]

/-- The fuelled line-building loop loses no characters as long as the
fuel covers the measure: flattening the emitted lines gives back the
flattened chunks. -/
theorem wrapFuel_flatten (width : Nat) :
    ∀ (fuel : Nat) (chunks : List (List Char)),
      2 * chunksChars chunks + chunks.length ≤ fuel →
      (wrapFuel width fuel chunks).flatten = chunks.flatten := by
  intro fuel
  induction fuel with
  | zero =>
    intro chunks h
    have hz : chunks = [] := by
      cases chunks with
      | nil => rfl
      | cons a b => simp [List.length_cons] at h
    rw [hz]
    rfl
  | succ fuel ih =>
    intro chunks h
    cases chunks with
    | nil => rfl
    | cons c0 crest =>
      rcases hsplit : takeGreedy width 0 (c0 :: crest) with ⟨taken, rest⟩
      have happ : taken ++ rest = c0 :: crest := by
        have h2 := takeGreedy_append width 0 (c0 :: crest)
        rw [hsplit] at h2
        exact h2
      cases rest with
      | nil =>
        have htk : taken = c0 :: crest := by simpa using happ
        have hne : taken.isEmpty = false := by rw [htk]; rfl
        simp only [wrapFuel, hsplit, hne, Bool.false_eq_true, if_false]
        simp [htk]
      | cons c rest2 =>
        have h1 : chunksChars (c0 :: crest) =
            chunksChars taken + (c.length + chunksChars rest2) := by
          rw [← happ, chunksChars_append, chunksChars_cons]
        have h2 : (c0 :: crest).length = taken.length + (rest2.length + 1) := by
          rw [← happ]
          simp [List.length_append]
        have hf : taken.flatten ++ (c ++ rest2.flatten) = c0 ++ crest.flatten := by
          have h3 := congrArg List.flatten happ
          simpa [List.flatten_append] using h3
        by_cases hw : width < c.length
        · by_cases hw1 : width < 1
          · have hmeas : 2 * chunksChars (c.drop 1 :: rest2) +
                (c.drop 1 :: rest2).length ≤ fuel := by
              have h3 : chunksChars (c.drop 1 :: rest2) =
                  (c.length - 1) + chunksChars rest2 := by
                rw [chunksChars_cons, List.length_drop]
              rw [h1, h2] at h
              rw [h3]
              simp only [List.length_cons]
              omega
            simp only [wrapFuel, hsplit]
            rw [if_pos hw, if_pos hw1]
            simp only [List.flatten_cons]
            rw [ih _ hmeas]
            simp only [List.flatten_cons, List.append_assoc]
            rw [← List.append_assoc (List.take 1 c), List.take_append_drop]
            exact hf
          · have hsl : 1 ≤ width - chunksChars taken ∨ 1 ≤ taken.length := by
              cases taken with
              | nil =>
                left
                simp only [chunksChars, List.map_nil, List.sum_nil]
                omega
              | cons t ts =>
                right
                simp
            have hmeas : 2 * chunksChars
                  (c.drop (width - chunksChars taken) :: rest2) +
                (c.drop (width - chunksChars taken) :: rest2).length ≤ fuel := by
              have h3 : chunksChars (c.drop (width - chunksChars taken) :: rest2) =
                  (c.length - (width - chunksChars taken)) + chunksChars rest2 := by
                rw [chunksChars_cons, List.length_drop]
              rw [h1, h2] at h
              rw [h3]
              simp only [List.length_cons]
              rcases hsl with h4 | h4 <;> omega
            simp only [wrapFuel, hsplit]
            rw [if_pos hw, if_neg hw1]
            simp only [List.flatten_cons]
            rw [ih _ hmeas]
            simp only [List.flatten_cons, List.append_assoc]
            rw [← List.append_assoc (List.take (width - chunksChars taken) c),
              List.take_append_drop]
            exact hf
        · by_cases he : taken.isEmpty = true
          · exfalso
            have htn : taken = [] := by rwa [List.isEmpty_iff] at he
            have hfst : (takeGreedy width 0 (c0 :: crest)).1 = [] := by
              rw [hsplit]
              exact htn
            rcases takeGreedy_fst_nil width c0 crest hfst with ⟨hw2, hsnd⟩
            rw [hsplit] at hsnd
            have hcc : c = c0 := (List.cons.inj hsnd).1
            rw [hcc] at hw
            exact hw hw2
          · have htn : taken ≠ [] := by
              intro hx
              rw [hx] at he
              exact he rfl
            have hlen : 1 ≤ taken.length := by
              cases taken with
              | nil => exact absurd rfl htn
              | cons t ts => simp
            have hmeas : 2 * chunksChars (c :: rest2) +
                (c :: rest2).length ≤ fuel := by
              rw [h1, h2] at h
              rw [chunksChars_cons]
              simp only [List.length_cons]
              omega
            simp only [wrapFuel, hsplit]
            rw [if_neg hw, if_neg he]
            simp only [List.flatten_cons]
            rw [ih _ hmeas]
            simp only [List.flatten_cons]
            exact hf

/-- Wrapping loses no characters. -/
theorem wrapChunks_flatten (width : Nat) (chunks : List (List Char)) :
    (wrapChunks width chunks).flatten = chunks.flatten :=
  wrapFuel_flatten width _ chunks (by omega)

/-- Claim C4 (amended): for a source line with no tab character,
concatenating the physical output lines the wrapper produces (removing
only the inserted line breaks) reconstructs the line exactly, the
physical lines are exactly what write_file_block writes for that line,
and an empty source line produces exactly one empty output line.  Lines
holding a tab are not reconstructed byte for byte: the wrapper keeps the
expand-tabs default of TextWrapper and turns each tab into spaces. -/
theorem wrap_reconstructs_line (raw : List Char) (h : '\x09' ∉ raw) :
    (outLinesForSource raw).flatten = raw ∧
    joinNL (outLinesForSource raw) = joinNL (pyWrap raw) ∧
    (raw = [] → outLinesForSource raw = [[]]) := by
  have hw : (pyWrap raw).flatten = raw := by
    unfold pyWrap
    rw [wrapChunks_flatten, splitRuns_flatten, expandTabsAux_no_tab 8 raw h 0]
  refine ⟨?_, ?_, ?_⟩
  · cases hp : pyWrap raw with
    | nil =>
      have hraw : raw = [] := by
        rw [hp] at hw
        simpa using hw.symm
      rw [hraw]
      rfl
    | cons l ls =>
      have ho : outLinesForSource raw = l :: ls := by
        unfold outLinesForSource
        rw [hp]
      rw [ho, ← hp]
      exact hw
  · cases hp : pyWrap raw with
    | nil =>
      have ho : outLinesForSource raw = [[]] := by
        unfold outLinesForSource
        rw [hp]
      rw [ho]
      rfl
    | cons l ls =>
      have ho : outLinesForSource raw = l :: ls := by
        unfold outLinesForSource
        rw [hp]
      rw [ho]
  · intro hraw
    rw [hraw]
    rfl

/-- Claim C4, witness: a tab-free line reconstructs exactly. -/
theorem wrap_reconstructs_line_check :
    '\x09' ∉ "hello world".data ∧
    (outLinesForSource "hello world".data).flatten = "hello world".data :=
  ⟨by decide, (wrap_reconstructs_line "hello world".data (by decide)).1⟩

/-- Claim C4, counterexample: the source line of a tab between two
letters is not reconstructed byte for byte from its wrapped output; the
tab has become seven spaces, because TextWrapper keeps its expand-tabs
default. -/
theorem wrap_expands_tabs :
    (outLinesForSource ['a', '\x09', 'b']).flatten ≠ ['a', '\x09', 'b'] ∧
    (outLinesForSource ['a', '\x09', 'b']).flatten = "a       b".data := by
  decide

/-- A found directory holds fewer nodes than the listing it was found
in. -/
theorem lookupDir_size_lt (d : String) :
    ∀ (entries : List FSEntry), d ∈ dirNames entries →
      entriesSize (lookupDir entries d) < entriesSize entries := by
  intro entries
  induction entries with
  | nil =>
    intro h
    simp [dirNames] at h
  | cons e rest ih =>
    intro h
    cases e with
    | file n =>
      simp only [dirNames] at h
      simp only [lookupDir, entriesSize]
      have h2 := ih h
      have hpos : entrySize (.file n) = 1 := rfl
      omega
    | dir n cs =>
      simp only [dirNames] at h
      simp only [lookupDir]
      by_cases hnd : n = d
      · rw [if_pos hnd]
        simp only [entriesSize, entrySize]
        omega
      · rw [if_neg hnd]
        have hd : d ∈ dirNames rest := by
          rcases List.mem_cons.mp h with h1 | h1
          · exact absurd h1.symm hnd
          · exact h1
        have h2 := ih hd
        simp only [entriesSize, entrySize]
        omega

/-- The walk does not depend on the fuel as long as the fuel exceeds the
node count: any two sufficient fuels give the same candidate list. -/
theorem walkFuel_mono (exclude inc : List String) :
    ∀ (f1 f2 : Nat) (dirpath : String) (entries : List FSEntry),
      entriesSize entries < f1 → entriesSize entries < f2 →
      walkFuel exclude inc f1 dirpath entries =
        walkFuel exclude inc f2 dirpath entries := by
  intro f1
  induction f1 with
  | zero =>
    intro f2 dirpath entries h1 h2
    omega
  | succ f1 ih =>
    intro f2 dirpath entries h1 h2
    cases f2 with
    | zero => omega
    | succ f2 =>
      simp only [walkFuel]
      have hmap : List.map
          (fun d => walkFuel exclude inc f1 (dirpath ++ "/" ++ d)
            (lookupDir entries d))
          ((sortStrs (dirNames entries)).filter
            (fun d => !(exclude.contains d))) =
        List.map
          (fun d => walkFuel exclude inc f2 (dirpath ++ "/" ++ d)
            (lookupDir entries d))
          ((sortStrs (dirNames entries)).filter
            (fun d => !(exclude.contains d))) := by
        apply List.map_congr_left
        intro d hd
        have hd2 : d ∈ dirNames entries :=
          mem_sortStrs d _ (List.mem_of_mem_filter hd)
        have hlt := lookupDir_size_lt d entries hd2
        exact ih f2 _ _ (by omega) (by omega)
      rw [hmap]

/-- Claim C8: directory pruning compares names by exact string equality
against the exclude set.  The default exclude names are all lower-case,
so a directory whose name differs from an excluded name only in letter
case is not a member of the set, is not pruned, and is descended into —
its walk is exactly the walk of its children — while the excluded name
itself is pruned to nothing.  Extension matching and special-filename
matching, by contrast, lower-case the filename first and so are
case-insensitive. -/
theorem dir_pruning_case_sensitive :
    (".git" ∈ DEFAULT_EXCLUDE_DIRS ∧ ".GIT" ∉ DEFAULT_EXCLUDE_DIRS) ∧
    (∀ (inc : List String) (dp name m : String) (cs : List FSEntry),
      m ∈ DEFAULT_EXCLUDE_DIRS → pyLower name = pyLower m → name ≠ m →
      gather_files dp [.dir name cs] inc DEFAULT_EXCLUDE_DIRS =
        gather_files (dp ++ "/" ++ name) cs inc DEFAULT_EXCLUDE_DIRS) ∧
    (∀ (inc : List String) (dp m : String) (cs : List FSEntry),
      m ∈ DEFAULT_EXCLUDE_DIRS →
      gather_files dp [.dir m cs] inc DEFAULT_EXCLUDE_DIRS = []) ∧
    (should_include "A.PY" ["py"] = true ∧ should_include "DOCKERFILE" [] = true) := by
  have hlower : DEFAULT_EXCLUDE_DIRS.all (fun s => pyLower s == s) = true := by
    decide
  refine ⟨⟨by decide, by decide⟩, ?_, ?_, by decide, by decide⟩
  · intro inc dp name m cs hm hlow hne
    have hnm : name ∉ DEFAULT_EXCLUDE_DIRS := by
      intro hmem
      have e1 : pyLower name = name :=
        eq_of_beq (List.all_eq_true.mp hlower name hmem)
      have e2 : pyLower m = m :=
        eq_of_beq (List.all_eq_true.mp hlower m hm)
      exact hne (by rw [← e1, hlow, e2])
    have hcont : DEFAULT_EXCLUDE_DIRS.contains name = false := by
      cases hb : DEFAULT_EXCLUDE_DIRS.contains name
      · rfl
      · exact absurd (List.elem_iff.mp hb) hnm
    unfold gather_files
    simp only [walkFuel, fileNames, dirNames, sortStrs, insertSorted,
      List.filter_nil, List.map_nil, List.nil_append, List.filter_cons,
      hcont, Bool.not_false, if_true, List.map_cons, lookupDir, if_pos rfl,
      List.flatten_cons, List.flatten_nil, List.append_nil]
    have hsz : entriesSize [FSEntry.dir name cs] = 1 + entriesSize cs := by
      simp [entriesSize, entrySize]
    rw [hsz]
    exact walkFuel_mono DEFAULT_EXCLUDE_DIRS inc (1 + entriesSize cs)
      (entriesSize cs + 1) (dp ++ "/" ++ name) cs (by omega) (by omega)
  · intro inc dp m cs hm
    have hcont : DEFAULT_EXCLUDE_DIRS.contains m = true := List.elem_iff.mpr hm
    unfold gather_files
    simp only [walkFuel, fileNames, dirNames, sortStrs, insertSorted,
      List.filter_nil, List.map_nil, List.nil_append, List.filter_cons,
      hcont, Bool.not_true, Bool.false_eq_true, if_false, List.flatten_nil]

/-- Claim C8, witness: .GIT is descended into while .git is pruned, on
concrete one-file trees. -/
theorem dir_pruning_case_sensitive_check :
    (".git" ∈ DEFAULT_EXCLUDE_DIRS) ∧ (pyLower ".GIT" = pyLower ".git") ∧
    (".GIT" ≠ ".git") ∧
    gather_files "root" [.dir ".GIT" [.file "x.py"]] ["py"] DEFAULT_EXCLUDE_DIRS =
      gather_files ("root" ++ "/" ++ ".GIT") [.file "x.py"] ["py"]
        DEFAULT_EXCLUDE_DIRS ∧
    gather_files "root" [.dir ".git" [.file "y.py"]] ["py"] DEFAULT_EXCLUDE_DIRS =
      [] :=
  ⟨by decide, by decide, by decide,
   dir_pruning_case_sensitive.2.1 ["py"] "root" ".GIT" ".git" [.file "x.py"]
     (by decide) (by decide) (by decide),
   dir_pruning_case_sensitive.2.2.1 ["py"] "root" ".git" [.file "y.py"]
     (by decide)⟩
